import Mathlib

/-!
Verification of the ARS protocol programs (ars-core, ars-token, ars-reserve,
icb-core) against their natural-language specification.

The Rust instruction handlers are shallowly embedded: u64/u16 arithmetic is
modelled on `ℕ` with explicit bounds checks mirroring `checked_add`,
`checked_sub`, `checked_mul` (errors map to `Err.ArithmeticOverflow`), i64
values are modelled on `ℤ` with explicit range checks, and every fallible
handler returns `Except Err σ`.  On the Solana runtime a failed instruction
reverts all account writes, so an `.error` result models "no state change".
-/

/-- Width bound of a `u64`: the largest representable value. -/
def U64MAX : ℕ := 2 ^ 64 - 1

/-- Smallest representable `i64` value. -/
def I64MIN : ℤ := -(2 ^ 63)

/-- Largest representable `i64` value. -/
def I64MAX : ℤ := 2 ^ 63 - 1

/-- Union of the error enums of the four programs (each Rust program declares
its own `ErrorCode`/`ICBError` enum; constructor names are kept verbatim). -/
inductive Err where
  | ArithmeticOverflow
  | AgentNotActive
  | CircuitBreakerActive
  | InsufficientStake
  | InvalidVotingPeriod
  | InvalidAmount
  | ProposalNotActive
  | ProposalStillActive
  | InvalidStakeAmount
  | MintCapExceeded
  | BurnCapExceeded
  | EpochNotComplete
  | InsufficientBalance
  | VHRTooLow
  | RebalanceNotNeeded
  deriving Repr, DecidableEq

deriving instance DecidableEq for Except

/-- Rust `u64::checked_add` followed by `ok_or(ArithmeticOverflow)`. -/
def checkedAdd (a b : ℕ) : Except Err ℕ :=
  if a + b ≤ U64MAX then .ok (a + b) else .error .ArithmeticOverflow

/-- Rust `u64::checked_sub` followed by `ok_or(ArithmeticOverflow)`. -/
def checkedSub (a b : ℕ) : Except Err ℕ :=
  if b ≤ a then .ok (a - b) else .error .ArithmeticOverflow

/-- Rust `u64::checked_mul` followed by `ok_or(ArithmeticOverflow)`. -/
def checkedMul (a b : ℕ) : Except Err ℕ :=
  if a * b ≤ U64MAX then .ok (a * b) else .error .ArithmeticOverflow

/-- Rust `i64::checked_add` followed by `ok_or(ArithmeticOverflow)`. -/
def checkedAddI (a b : ℤ) : Except Err ℤ :=
  if I64MIN ≤ a + b ∧ a + b ≤ I64MAX then .ok (a + b) else .error .ArithmeticOverflow

/-- Rust `i64::checked_sub` followed by `ok_or(ArithmeticOverflow)`. -/
def checkedSubI (a b : ℤ) : Except Err ℤ :=
  if I64MIN ≤ a - b ∧ a - b ≤ I64MAX then .ok (a - b) else .error .ArithmeticOverflow

/-- Rust `x as i64` applied to a `u64` value (two's-complement reinterpretation). -/
def intOfU64 (n : ℕ) : ℤ := if n < 2 ^ 63 then (n : ℤ) else (n : ℤ) - 2 ^ 64

namespace ArsReserve

/-- State of `ars_reserve::ReserveVault` (`ars-reserve/src/state.rs`); the four
sub-vault addresses and the authority are omitted as no embedded operation
reads them.  `vhr` is a `u16`, held as `ℕ < 2^16` by construction. -/
structure ReserveVault where
  total_value_usd : ℕ
  liabilities_usd : ℕ
  vhr : ℕ
  last_rebalance : ℤ
  rebalance_threshold_bps : ℕ
  min_vhr : ℕ
  deriving Repr, DecidableEq

/-- Embedding of `calculate_vhr` (`ars-reserve/src/lib.rs` lines 140-152):
zero liabilities short-circuit to `u16::MAX = 65535`; otherwise
`total_value_usd.checked_mul(10000)` (overflow errors), `checked_div`
(divisor is nonzero here, so plain division), and the final Rust cast
`ratio as u16`, which truncates to the low 16 bits (`% 65536`). -/
def calculate_vhr (total_value_usd liabilities_usd : ℕ) : Except Err ℕ :=
  if liabilities_usd = 0 then .ok 65535
  else
    match checkedMul total_value_usd 10000 with
    | .error e => .error e
    | .ok p => .ok (p / liabilities_usd % 65536)

/-- Embedding of `ars_reserve::withdraw` (`ars-reserve/src/lib.rs` lines
74-119).  `vault_token_balance` is the `amount` field of the vault's SPL token
account.  The first component of the result is the ordered list of token
transfer amounts issued via CPI before the handler returned, so an error
paired with `[]` shows the handler failed before any transfer was issued. -/
def withdraw (vault : ReserveVault) (vault_token_balance amount : ℕ) :
    List ℕ × Except Err ReserveVault :=
  if ¬ amount ≤ vault_token_balance then ([], .error .InsufficientBalance)
  else
    match checkedSub vault.total_value_usd amount with
    | .error e => ([], .error e)
    | .ok new_total_value =>
      match calculate_vhr new_total_value vault.liabilities_usd with
      | .error e => ([], .error e)
      | .ok new_vhr =>
        if ¬ vault.min_vhr ≤ new_vhr then ([], .error .VHRTooLow)
        else ([amount],
          .ok { vault with total_value_usd := new_total_value, vhr := new_vhr })

end ArsReserve

/-- C4: `withdraw` fails with `InsufficientBalance` when the amount exceeds the
vault's token balance; when the balance suffices it computes the
post-withdrawal health ratio and fails with the VHR-too-low error
(`ErrorCode::VHRTooLow`, the source's name for the spec's `HealthRatioTooLow`)
whenever that ratio is below `min_vhr`.  In both failure cases the returned
transfer trace is empty — the check happens before the transfer is issued —
and no updated vault state is produced, so the vault is unchanged. -/
theorem withdraw_checks_balance_and_vhr_before_transfer
    (v : ArsReserve.ReserveVault) (bal amount r : ℕ) :
    (bal < amount →
      ArsReserve.withdraw v bal amount = ([], .error .InsufficientBalance)) ∧
    (amount ≤ bal → amount ≤ v.total_value_usd →
      ArsReserve.calculate_vhr (v.total_value_usd - amount) v.liabilities_usd = .ok r →
      r < v.min_vhr →
      ArsReserve.withdraw v bal amount = ([], .error .VHRTooLow)) := by
  constructor
  · intro h
    simp only [ArsReserve.withdraw]
    rw [if_pos (Nat.not_le.mpr h)]
  · intro h1 h2 h3 h4
    simp only [ArsReserve.withdraw]
    rw [if_neg (by omega : ¬ ¬ amount ≤ bal)]
    simp only [checkedSub, if_pos h2, h3]
    rw [if_pos (Nat.not_le.mpr h4)]

/-- Witness for C4, instantiating the spec's scenario: a vault worth 1600 with
liabilities 1000 (ratio 16000 bps) and `min_vhr = 15000`; withdrawing 200
would drop the ratio to 14000 bps, so the withdrawal is rejected with the
VHR-too-low error, no transfer is issued and the vault is unchanged. -/
theorem withdraw_checks_balance_and_vhr_before_transfer_witness :
    ArsReserve.withdraw ⟨1600, 1000, 16000, 0, 0, 15000⟩ 1600 200 =
      ([], .error .VHRTooLow) :=
  (withdraw_checks_balance_and_vhr_before_transfer ⟨1600, 1000, 16000, 0, 0, 15000⟩
    1600 200 14000).2 (by decide) (by decide) (by decide) (by decide)

/-- C6 counterexample: the claim states the computed ratio equals
`floor(value * 10000 / liabilities)`, but the final `as u16` cast in
`calculate_vhr` truncates the `u64` quotient modulo `2^16`.  At
`value = 65536`, `liabilities = 1` the true quotient is 655360000 while the
function returns 0. -/
theorem calculate_vhr_truncation_counterexample :
    ArsReserve.calculate_vhr 65536 1 = .ok 0 ∧ (65536 * 10000 / 1 : ℕ) ≠ 0 := by
  constructor <;> decide

/-- C6 (amended): with zero liabilities the ratio is the `u16::MAX` sentinel
65535; with nonzero liabilities and `value * 10000` within `u64` range the
ratio is `floor(value * 10000 / liabilities)` reduced modulo `2^16` (the
`as u16` cast); if `value * 10000` overflows `u64` the call fails with
`ArithmeticOverflow`.  The spec scenario `value = liabilities = 1000000`
yields exactly 10000 bps (where the modulus is invisible). -/
theorem calculate_vhr_formula (v l : ℕ) :
    (l = 0 → ArsReserve.calculate_vhr v l = .ok 65535) ∧
    (l ≠ 0 → v * 10000 ≤ U64MAX →
      ArsReserve.calculate_vhr v l = .ok (v * 10000 / l % 65536)) ∧
    (l ≠ 0 → U64MAX < v * 10000 →
      ArsReserve.calculate_vhr v l = .error .ArithmeticOverflow) ∧
    ArsReserve.calculate_vhr 1000000 1000000 = .ok 10000 := by
  refine ⟨fun h => by simp [ArsReserve.calculate_vhr, h], ?_, ?_, by decide⟩
  · intro h hle
    simp [ArsReserve.calculate_vhr, h, checkedMul, hle]
  · intro h hlt
    simp [ArsReserve.calculate_vhr, h, checkedMul, Nat.not_le.mpr hlt]

/-- Witness for C6's amended theorem at `v = 20000`, `l = 40000`
(50% collateralisation → 5000 bps). -/
theorem calculate_vhr_formula_witness :
    ArsReserve.calculate_vhr 20000 40000 = .ok 5000 := by
  have h := (calculate_vhr_formula 20000 40000).2.1 (by decide) (by decide)
  simpa using h

namespace ArsToken

/-- State of `ars_token::MintState` (`ars-token/src/state.rs`); the authority
and mint addresses are omitted as no embedded operation reads them.  Note the
struct has no supply-at-epoch-start snapshot field: the only supply figure is
the live `total_supply`. -/
structure MintState where
  current_epoch : ℕ
  epoch_start : ℤ
  epoch_duration : ℤ
  total_supply : ℕ
  epoch_minted : ℕ
  epoch_burned : ℕ
  mint_cap_per_epoch_bps : ℕ
  burn_cap_per_epoch_bps : ℕ
  deriving Repr, DecidableEq

/-- State of `ars_token::EpochHistory` (`ars-token/src/state.rs`). -/
structure EpochHistory where
  epoch_number : ℕ
  start_time : ℤ
  end_time : ℤ
  total_minted : ℕ
  total_burned : ℕ
  net_supply_change : ℤ
  final_supply : ℕ
  deriving Repr, DecidableEq

/-- Embedding of `ars_token::mint_aru` (`ars-token/src/lib.rs` lines 43-90).
The cap is `total_supply.checked_mul(cap_bps).checked_div(10000)` computed
from the LIVE supply at entry (the divisor 10000 is nonzero, so the
`checked_div` cannot fail); the SPL `mint_to` CPI is modelled as succeeding;
the counters are written only after all checks pass. -/
def mint_aru (m : MintState) (amount : ℕ) : Except Err MintState :=
  match checkedMul m.total_supply m.mint_cap_per_epoch_bps with
  | .error e => .error e
  | .ok p =>
    let mint_cap := p / 10000
    match checkedAdd m.epoch_minted amount with
    | .error e => .error e
    | .ok new_epoch_minted =>
      if ¬ new_epoch_minted ≤ mint_cap then .error .MintCapExceeded
      else
        match checkedAdd m.total_supply amount with
        | .error e => .error e
        | .ok new_supply =>
          .ok { m with epoch_minted := new_epoch_minted, total_supply := new_supply }

/-- Embedding of `ars_token::burn_aru` (`ars-token/src/lib.rs` lines 92-131),
symmetric to `mint_aru` with `burn_cap_per_epoch_bps`, `epoch_burned`, error
`BurnCapExceeded`, and `checked_sub` on the supply. -/
def burn_aru (m : MintState) (amount : ℕ) : Except Err MintState :=
  match checkedMul m.total_supply m.burn_cap_per_epoch_bps with
  | .error e => .error e
  | .ok p =>
    let burn_cap := p / 10000
    match checkedAdd m.epoch_burned amount with
    | .error e => .error e
    | .ok new_epoch_burned =>
      if ¬ new_epoch_burned ≤ burn_cap then .error .BurnCapExceeded
      else
        match checkedSub m.total_supply amount with
        | .error e => .error e
        | .ok new_supply =>
          .ok { m with epoch_burned := new_epoch_burned, total_supply := new_supply }

/-- Embedding of `ars_token::start_new_epoch` (`ars-token/src/lib.rs` lines
133-167): requires the epoch window to have elapsed, archives an
`EpochHistory` record, then advances the epoch and resets the counters. -/
def start_new_epoch (m : MintState) (current_time : ℤ) :
    Except Err (MintState × EpochHistory) :=
  match checkedAddI m.epoch_start m.epoch_duration with
  | .error e => .error e
  | .ok epoch_end =>
    if ¬ epoch_end ≤ current_time then .error .EpochNotComplete
    else
      match checkedSubI (intOfU64 m.epoch_minted) (intOfU64 m.epoch_burned) with
      | .error e => .error e
      | .ok net =>
        match checkedAdd m.current_epoch 1 with
        | .error e => .error e
        | .ok next_epoch =>
          .ok ({ m with current_epoch := next_epoch, epoch_start := current_time,
                        epoch_minted := 0, epoch_burned := 0 },
               { epoch_number := m.current_epoch, start_time := m.epoch_start,
                 end_time := current_time, total_minted := m.epoch_minted,
                 total_burned := m.epoch_burned, net_supply_change := net,
                 final_supply := m.total_supply })

/-- A `MintState` paired with the ghost quantity the claim speaks about:
`supply_at_epoch_start`, the value of `total_supply` when the current epoch
began.  The program itself stores no such snapshot; the ghost field is
carried alongside purely so the claim can be stated. -/
structure SupplyLedger where
  st : MintState
  supply_at_epoch_start : ℕ
  deriving Repr, DecidableEq

/-- One supply-controller instruction. -/
inductive TokenOp where
  | mint (amount : ℕ)
  | burn (amount : ℕ)
  | rollover (current_time : ℤ)
  deriving Repr, DecidableEq

/-- Runs one instruction on a ledger, updating the ghost snapshot exactly when
an epoch rollover commits. -/
def stepLedger (l : SupplyLedger) (op : TokenOp) : Except Err SupplyLedger :=
  match op with
  | .mint amount =>
    match mint_aru l.st amount with
    | .error e => .error e
    | .ok m => .ok ⟨m, l.supply_at_epoch_start⟩
  | .burn amount =>
    match burn_aru l.st amount with
    | .error e => .error e
    | .ok m => .ok ⟨m, l.supply_at_epoch_start⟩
  | .rollover t =>
    match start_new_epoch l.st t with
    | .error e => .error e
    | .ok (m, _) => .ok ⟨m, m.total_supply⟩

/-- A mint state at the start of an epoch with supply 10000 and a 100%
(10000 bps) mint/burn cap. -/
def m10k : MintState := ⟨0, 0, 86400, 10000, 0, 0, 10000, 10000⟩

/-- The same state after minting 10000 once. -/
def m10kAfter1 : MintState := ⟨0, 0, 86400, 20000, 10000, 0, 10000, 10000⟩

/-- The same state after minting 10000 twice. -/
def m10kAfter2 : MintState := ⟨0, 0, 86400, 30000, 20000, 0, 10000, 10000⟩

end ArsToken

/-- C3 counterexample: the claim bounds `epoch_minted` by
`floor(supply_at_epoch_start * cap_bps / 10000)`, but `mint_aru` computes the
cap from the live `total_supply`, which grows with every mint inside the
epoch.  Starting an epoch with supply 10000 and a 10000 bps cap, two mints of
10000 each succeed within the same epoch, leaving `epoch_minted = 20000`,
twice the claimed bound `floor(10000 * 10000 / 10000) = 10000`. -/
theorem mint_cap_uses_live_supply_counterexample :
    ArsToken.stepLedger ⟨ArsToken.m10k, 10000⟩ (.mint 10000) =
      .ok ⟨ArsToken.m10kAfter1, 10000⟩ ∧
    ArsToken.stepLedger ⟨ArsToken.m10kAfter1, 10000⟩ (.mint 10000) =
      .ok ⟨ArsToken.m10kAfter2, 10000⟩ ∧
    ArsToken.m10kAfter2.epoch_minted = 20000 ∧
    ¬ ArsToken.m10kAfter2.epoch_minted ≤ 10000 * 10000 / 10000 := by
  refine ⟨by decide, by decide, by decide, by decide⟩

/-- C3 (amended): the epoch caps are computed from the live `total_supply` at
the time of each call (no epoch-start snapshot exists in `MintState`).  After
every successful mint the new cumulative `epoch_minted` is at most
`floor(total_supply_before_the_mint * mint_cap_bps / 10000)`, and a mint whose
new cumulative total would exceed that live cap fails with `MintCapExceeded`,
producing no state (counters unchanged); symmetrically for burn with
`BurnCapExceeded`. -/
theorem mint_burn_cap_live (m : ArsToken.MintState) (amount : ℕ) :
    (∀ m', ArsToken.mint_aru m amount = .ok m' →
      m'.epoch_minted = m.epoch_minted + amount ∧
      m'.epoch_minted ≤ m.total_supply * m.mint_cap_per_epoch_bps / 10000 ∧
      m'.total_supply = m.total_supply + amount ∧
      m'.epoch_burned = m.epoch_burned) ∧
    (m.epoch_minted + amount ≤ U64MAX →
      m.total_supply * m.mint_cap_per_epoch_bps ≤ U64MAX →
      m.total_supply * m.mint_cap_per_epoch_bps / 10000 < m.epoch_minted + amount →
      ArsToken.mint_aru m amount = .error .MintCapExceeded) ∧
    (∀ m', ArsToken.burn_aru m amount = .ok m' →
      m'.epoch_burned = m.epoch_burned + amount ∧
      m'.epoch_burned ≤ m.total_supply * m.burn_cap_per_epoch_bps / 10000 ∧
      m'.total_supply = m.total_supply - amount ∧
      m'.epoch_minted = m.epoch_minted) ∧
    (m.epoch_burned + amount ≤ U64MAX →
      m.total_supply * m.burn_cap_per_epoch_bps ≤ U64MAX →
      m.total_supply * m.burn_cap_per_epoch_bps / 10000 < m.epoch_burned + amount →
      ArsToken.burn_aru m amount = .error .BurnCapExceeded) := by
  refine ⟨?_, ?_, ?_, ?_⟩
  · intro m' h
    by_cases hmul : m.total_supply * m.mint_cap_per_epoch_bps ≤ U64MAX
    case neg => simp [ArsToken.mint_aru, checkedMul, hmul] at h
    by_cases hadd : m.epoch_minted + amount ≤ U64MAX
    case neg => simp [ArsToken.mint_aru, checkedMul, checkedAdd, hmul, hadd] at h
    by_cases hcap : m.epoch_minted + amount ≤
        m.total_supply * m.mint_cap_per_epoch_bps / 10000
    case neg => simp [ArsToken.mint_aru, checkedMul, checkedAdd, hmul, hadd, hcap] at h
    by_cases hsup : m.total_supply + amount ≤ U64MAX
    case neg =>
      simp [ArsToken.mint_aru, checkedMul, checkedAdd, hmul, hadd, hcap, hsup] at h
    simp [ArsToken.mint_aru, checkedMul, checkedAdd, hmul, hadd, hcap, hsup] at h
    subst h
    exact ⟨rfl, hcap, rfl, rfl⟩
  · intro h1 h2 h3
    simp only [ArsToken.mint_aru, checkedMul, checkedAdd, if_pos h2, if_pos h1]
    rw [if_pos (by omega : ¬ m.epoch_minted + amount ≤
      m.total_supply * m.mint_cap_per_epoch_bps / 10000)]
  · intro m' h
    by_cases hmul : m.total_supply * m.burn_cap_per_epoch_bps ≤ U64MAX
    case neg => simp [ArsToken.burn_aru, checkedMul, hmul] at h
    by_cases hadd : m.epoch_burned + amount ≤ U64MAX
    case neg => simp [ArsToken.burn_aru, checkedMul, checkedAdd, hmul, hadd] at h
    by_cases hcap : m.epoch_burned + amount ≤
        m.total_supply * m.burn_cap_per_epoch_bps / 10000
    case neg => simp [ArsToken.burn_aru, checkedMul, checkedAdd, hmul, hadd, hcap] at h
    by_cases hsup : amount ≤ m.total_supply
    case neg =>
      simp [ArsToken.burn_aru, checkedMul, checkedAdd, checkedSub,
        hmul, hadd, hcap, hsup] at h
    simp [ArsToken.burn_aru, checkedMul, checkedAdd, checkedSub,
      hmul, hadd, hcap, hsup] at h
    subst h
    exact ⟨rfl, hcap, rfl, rfl⟩
  · intro h1 h2 h3
    simp only [ArsToken.burn_aru, checkedMul, checkedAdd, if_pos h2, if_pos h1]
    rw [if_pos (by omega : ¬ m.epoch_burned + amount ≤
      m.total_supply * m.burn_cap_per_epoch_bps / 10000)]

/-- Witness for C3's amended theorem: from supply 10000 with a 10000 bps cap,
a mint of 20000 would push `epoch_minted` past the live cap 10000 and is
rejected with `MintCapExceeded`. -/
theorem mint_burn_cap_live_witness :
    ArsToken.mint_aru ArsToken.m10k 20000 = .error .MintCapExceeded :=
  (mint_burn_cap_live ArsToken.m10k 20000).2.1 (by decide) (by decide) (by decide)

namespace ArsCore

/-- State of `ars_core::GlobalState` (`ars-core/src/state.rs`); only the
fields read or written by the embedded handlers are kept. -/
structure GlobalState where
  circuit_breaker_active : Bool
  circuit_breaker_timelock : ℤ
  min_agent_consensus : ℕ
  proposal_counter : ℕ
  deriving Repr, DecidableEq

/-- State of `ars_core::AgentRegistry` (`ars-core/src/state.rs`); the public
key is modelled as a bare `ℕ`, and the tier/counters/timestamps not read by
the embedded handlers are omitted. -/
structure AgentRegistry where
  agent_pubkey : ℕ
  stake_amount : ℕ
  reputation_score : ℤ
  is_active : Bool
  deriving Repr, DecidableEq

/-- An `ars_core::ILIPendingUpdate` (`ars-core/src/state.rs`); the 64-byte
signature the handler stores as a constant `[0u8; 64]` is omitted. -/
structure ILIPendingUpdate where
  agent : ℕ
  ili_value : ℕ
  timestamp : ℤ
  deriving Repr, DecidableEq

/-- State of `ars_core::ILIOracle` (`ars-core/src/state.rs`). -/
structure ILIOracle where
  current_ili : ℕ
  last_update : ℤ
  update_interval : ℤ
  pending_updates : List ILIPendingUpdate
  consensus_threshold : ℕ
  deriving Repr, DecidableEq

/-- Embedding of `ars_core::submit_ili_update` (`ars-core/src/lib_complete.rs`
lines 169-217).  After the agent-active and circuit-breaker gates, the
submission is pushed; if the pending set has reached `consensus_threshold`,
the pending values are sorted ascending (`sort_unstable`; on `ℕ` with `≤` any
correct sort yields the same list, embedded as `insertionSort`) and the
median is taken — on an even count the Rust sum `values[l/2-1] + values[l/2]`
is an unchecked `u64` add, hence reduced `% 2^64` before halving.  The new
value is committed, `last_update` stamped with the clock, and the pending set
cleared.  No comparison against `update_interval` occurs anywhere. -/
def submit_ili_update (g : GlobalState) (agent : AgentRegistry) (o : ILIOracle)
    (ili_value : ℕ) (timestamp now : ℤ) : Except Err ILIOracle :=
  if ¬ agent.is_active then .error .AgentNotActive
  else if g.circuit_breaker_active then .error .CircuitBreakerActive
  else
    let pending := o.pending_updates ++ [⟨agent.agent_pubkey, ili_value, timestamp⟩]
    if o.consensus_threshold ≤ pending.length then
      let values := List.insertionSort (· ≤ ·) (pending.map ILIPendingUpdate.ili_value)
      let median :=
        if values.length % 2 = 0 then
          (values.getD (values.length / 2 - 1) 0 + values.getD (values.length / 2) 0)
            % 2 ^ 64 / 2
        else values.getD (values.length / 2) 0
      .ok { o with current_ili := median, last_update := now, pending_updates := [] }
    else .ok { o with pending_updates := pending }

/-- Modelled from the spec: the claim's own median — sort the submitted
values ascending; an odd count takes the middle element, an even count the
average of the two middle elements.  Kept separate from the code path so the
aggregation result can be compared against it. -/
def specMedian (values : List ℕ) : ℕ :=
  let s := List.insertionSort (· ≤ ·) values
  if s.length % 2 = 0 then (s.getD (s.length / 2 - 1) 0 + s.getD (s.length / 2) 0) / 2
  else s.getD (s.length / 2) 0

/-- The oracle as created by `ars_core::initialize` (`lib_complete.rs` lines
50-57): empty pending set, `update_interval = 300`, `consensus_threshold = 3`. -/
def initOracle : ILIOracle :=
  { current_ili := 0, last_update := 0, update_interval := 300,
    pending_updates := [], consensus_threshold := 3 }

/-- Oracle states reachable from `initialize` by any sequence of successful
`submit_ili_update` calls, under arbitrary global/agent states and clocks. -/
inductive ReachOracle : ILIOracle → Prop where
  | init : ReachOracle initOracle
  | step (g : GlobalState) (agent : AgentRegistry) (o o' : ILIOracle)
      (v : ℕ) (ts now : ℤ) : ReachOracle o →
      submit_ili_update g agent o v ts now = .ok o' → ReachOracle o'

/-- Every reachable oracle keeps the initial quorum size 3 and holds fewer
than 3 pending submissions between calls. -/
theorem reach_invariant (o : ILIOracle) (h : ReachOracle o) :
    o.consensus_threshold = 3 ∧ o.pending_updates.length ≤ 2 := by
  induction h with
  | init => exact ⟨rfl, by decide⟩
  | step g agent o o' v ts now _ hstep ih =>
    obtain ⟨ht, hl⟩ := ih
    by_cases ha : agent.is_active = true
    case neg => simp [submit_ili_update, ha] at hstep
    by_cases hb : g.circuit_breaker_active = true
    case pos => simp [submit_ili_update, ha, hb] at hstep
    by_cases hq : o.consensus_threshold ≤ o.pending_updates.length + 1
    · simp only [submit_ili_update] at hstep
      rw [if_neg (by simp [ha]), if_neg hb, if_pos (by simpa using hq)] at hstep
      cases hstep
      exact ⟨ht, by simp⟩
    · simp only [submit_ili_update] at hstep
      rw [if_neg (by simp [ha]), if_neg hb, if_neg (by simpa using hq)] at hstep
      cases hstep
      refine ⟨ht, ?_⟩
      simp only [List.length_append, List.length_cons, List.length_nil]
      omega

end ArsCore

/-- C1: along any reachable oracle history (where the quorum size is the
initialized 3, always odd), a successful submission that fills the pending
set to quorum commits exactly the claim's median — the middle element of the
sorted pending values — as the new `current_ili` and leaves the pending set
empty; a submission below quorum only appends, changing neither the
aggregated value nor the aggregation timestamp, so aggregation happens iff
the pending set reaches the quorum size. -/
theorem oracle_aggregates_median_and_clears
    (g : ArsCore.GlobalState) (a : ArsCore.AgentRegistry) (o o' : ArsCore.ILIOracle)
    (v : ℕ) (ts now : ℤ)
    (hreach : ArsCore.ReachOracle o)
    (hstep : ArsCore.submit_ili_update g a o v ts now = .ok o') :
    (o.consensus_threshold ≤ o.pending_updates.length + 1 →
      o'.current_ili = ArsCore.specMedian
        ((o.pending_updates ++ [(⟨a.agent_pubkey, v, ts⟩ :
          ArsCore.ILIPendingUpdate)]).map ArsCore.ILIPendingUpdate.ili_value) ∧
      o'.pending_updates = []) ∧
    (o.pending_updates.length + 1 < o.consensus_threshold →
      o'.pending_updates = o.pending_updates ++ [(⟨a.agent_pubkey, v, ts⟩ :
        ArsCore.ILIPendingUpdate)] ∧
      o'.current_ili = o.current_ili ∧ o'.last_update = o.last_update) := by
  obtain ⟨ht, hl⟩ := ArsCore.reach_invariant o hreach
  by_cases ha : a.is_active = true
  case neg => simp [ArsCore.submit_ili_update, ha] at hstep
  by_cases hb : g.circuit_breaker_active = true
  case pos => simp [ArsCore.submit_ili_update, ha, hb] at hstep
  by_cases hq : o.consensus_threshold ≤ o.pending_updates.length + 1
  · simp only [ArsCore.submit_ili_update] at hstep
    rw [if_neg (by simp [ha]), if_neg hb, if_pos (by simpa using hq)] at hstep
    cases hstep
    refine ⟨fun _ => ⟨?_, rfl⟩, fun hlt => by omega⟩
    have hlen : o.pending_updates.length = 2 := by omega
    simp [ArsCore.specMedian, hlen]
  · simp only [ArsCore.submit_ili_update] at hstep
    rw [if_neg (by simp [ha]), if_neg hb, if_neg (by simpa using hq)] at hstep
    cases hstep
    exact ⟨fun h => absurd h hq, fun _ => ⟨rfl, rfl, rfl⟩⟩

namespace ArsCore

/-- A protocol state with the circuit breaker off. -/
def wg0 : GlobalState := ⟨false, 0, 3, 0⟩

/-- An active registered agent. -/
def wa0 : AgentRegistry := ⟨7, 100000000, 0, true⟩

/-- The oracle after one submission (value 100). -/
def wo1 : ILIOracle :=
  { current_ili := 0, last_update := 0, update_interval := 300,
    pending_updates := [⟨7, 100, 0⟩], consensus_threshold := 3 }

/-- The oracle after two submissions (values 100 and 200). -/
def wo2 : ILIOracle :=
  { current_ili := 0, last_update := 0, update_interval := 300,
    pending_updates := [⟨7, 100, 0⟩, ⟨7, 200, 0⟩], consensus_threshold := 3 }

/-- The oracle after the third submission (value 9000) at time 77 triggered
aggregation: median 200 committed, pending set cleared. -/
def wo3 : ILIOracle :=
  { current_ili := 200, last_update := 77, update_interval := 300,
    pending_updates := [], consensus_threshold := 3 }

/-- `wo2` is reachable: two successful submissions from the initial oracle. -/
theorem reach_wo2 : ReachOracle wo2 :=
  .step wg0 wa0 wo1 wo2 200 0 60
    (.step wg0 wa0 initOracle wo1 100 0 50 .init (by decide)) (by decide)

end ArsCore

/-- Witness for C1, realizing the spec scenario {100, 200, 9000} with
quorum 3: the third submission reaches quorum, the committed value is the
median 200, and the pending set is empty afterwards. -/
theorem oracle_aggregates_median_and_clears_witness :
    (ArsCore.wo2.consensus_threshold ≤ ArsCore.wo2.pending_updates.length + 1 →
      ArsCore.wo3.current_ili = ArsCore.specMedian
        ((ArsCore.wo2.pending_updates ++ [(⟨ArsCore.wa0.agent_pubkey, 9000, 0⟩ :
          ArsCore.ILIPendingUpdate)]).map ArsCore.ILIPendingUpdate.ili_value) ∧
      ArsCore.wo3.pending_updates = []) ∧
    (ArsCore.wo2.pending_updates.length + 1 < ArsCore.wo2.consensus_threshold →
      ArsCore.wo3.pending_updates =
        ArsCore.wo2.pending_updates ++ [(⟨ArsCore.wa0.agent_pubkey, 9000, 0⟩ :
          ArsCore.ILIPendingUpdate)] ∧
      ArsCore.wo3.current_ili = ArsCore.wo2.current_ili ∧
      ArsCore.wo3.last_update = ArsCore.wo2.last_update) :=
  oracle_aggregates_median_and_clears ArsCore.wg0 ArsCore.wa0 ArsCore.wo2 ArsCore.wo3
    9000 0 77 ArsCore.reach_wo2 (by decide)

/-- C2 (amended): the oracle submission path does short-circuit — for any
active agent, if the circuit breaker is active then `submit_ili_update`
returns `CircuitBreakerActive` and produces no state, so nothing is mutated.
The remaining value-moving operations (token mint/burn, reserve
deposit/withdraw, proposal creation/voting) perform no circuit-breaker check
at all: their handlers never read the breaker flag (see the counterexample). -/
theorem submit_short_circuits_when_breaker_active
    (g : ArsCore.GlobalState) (a : ArsCore.AgentRegistry) (o : ArsCore.ILIOracle)
    (v : ℕ) (ts now : ℤ)
    (ha : a.is_active = true) (hb : g.circuit_breaker_active = true) :
    ArsCore.submit_ili_update g a o v ts now = .error .CircuitBreakerActive := by
  simp [ArsCore.submit_ili_update, ha, hb]

/-- Witness for C2's amended theorem: a concrete active agent and tripped
breaker. -/
theorem submit_short_circuits_when_breaker_active_witness :
    ArsCore.submit_ili_update ⟨true, 0, 3, 0⟩ ArsCore.wa0 ArsCore.initOracle
      500 0 10 = .error .CircuitBreakerActive :=
  submit_short_circuits_when_breaker_active ⟨true, 0, 3, 0⟩ ArsCore.wa0
    ArsCore.initOracle 500 0 10 (by decide) (by decide)

/-- C2 counterexample: with the circuit breaker active, a token mint and a
reserve withdrawal both succeed.  `ars_token::mint_aru` and
`ars_reserve::withdraw` never read `GlobalState.circuit_breaker_active`
(their account structs do not even include the ars-core global state, and
their error enums have no `CircuitBreakerActive` variant), so the same
successful runs happen regardless of the breaker — refuting the claim that
every value-moving operation fails with `CircuitBreakerActive` while the
breaker is active. -/
theorem circuit_breaker_not_consulted_counterexample :
    (⟨true, 0, 3, 0⟩ : ArsCore.GlobalState).circuit_breaker_active = true ∧
    ArsToken.mint_aru ArsToken.m10k 100 =
      .ok ⟨0, 0, 86400, 10100, 100, 0, 10000, 10000⟩ ∧
    ArsReserve.withdraw ⟨1000, 0, 65535, 0, 5000, 10000⟩ 1000 100 =
      ([100], .ok ⟨900, 0, 65535, 0, 5000, 10000⟩) :=
  ⟨rfl, by decide, by decide⟩

namespace ArsCore

/-- First aggregation of the C5 run: three submissions at time 1000 committed
median 200. -/
def co3 : ILIOracle :=
  { current_ili := 200, last_update := 1000, update_interval := 300,
    pending_updates := [], consensus_threshold := 3 }

/-- C5 run state after a fourth submission (value 300) at time 1100. -/
def co4 : ILIOracle := { co3 with pending_updates := [⟨7, 300, 0⟩] }

/-- C5 run state after a fifth submission (value 400) at time 1100. -/
def co5 : ILIOracle := { co3 with pending_updates := [⟨7, 300, 0⟩, ⟨7, 400, 0⟩] }

/-- C5 run end state: the sixth submission at time 1100 aggregated again. -/
def co6 : ILIOracle :=
  { current_ili := 400, last_update := 1100, update_interval := 300,
    pending_updates := [], consensus_threshold := 3 }

end ArsCore

/-- C5: evaluation of `submit_ili_update` at the failing input.  From the
initialized oracle, three submissions at time 1000 aggregate (median 200,
`last_update = 1000`); three more submissions at time 1100 — only 100 seconds
later, well inside the 300-second `update_interval` — aggregate again and
commit a new value.  The handler never compares `now - last_update` against
`update_interval`, so the minimum inter-update interval claimed by the spec
is not enforced: the second aggregation commits although the interval has not
elapsed. -/
theorem second_aggregation_ignores_interval :
    ArsCore.submit_ili_update ArsCore.wg0 ArsCore.wa0 ArsCore.initOracle 100 0 1000
      = .ok ArsCore.wo1 ∧
    ArsCore.submit_ili_update ArsCore.wg0 ArsCore.wa0 ArsCore.wo1 200 0 1000
      = .ok ArsCore.wo2 ∧
    ArsCore.submit_ili_update ArsCore.wg0 ArsCore.wa0 ArsCore.wo2 9000 0 1000
      = .ok ArsCore.co3 ∧
    ArsCore.submit_ili_update ArsCore.wg0 ArsCore.wa0 ArsCore.co3 300 0 1100
      = .ok ArsCore.co4 ∧
    ArsCore.submit_ili_update ArsCore.wg0 ArsCore.wa0 ArsCore.co4 400 0 1100
      = .ok ArsCore.co5 ∧
    ArsCore.submit_ili_update ArsCore.wg0 ArsCore.wa0 ArsCore.co5 500 0 1100
      = .ok ArsCore.co6 ∧
    ArsCore.co6.current_ili = 400 ∧ ArsCore.co6.last_update = 1100 ∧
    (1100 : ℤ) - ArsCore.co3.last_update < ArsCore.co3.update_interval := by
  refine ⟨by decide, by decide, by decide, by decide, by decide, by decide,
    rfl, rfl, by decide⟩

namespace F64

/-- Exact value of the Rust conversion `x as f64` for a `u64` value `x`.
Every IEEE-754 binary64 in `[0, 2^64]` whose value is an integer is a
multiple of `2^(e-52)` where `e` is its binade exponent, so the conversion
(round to nearest, ties to even — the default and only rounding mode Rust
uses for `as`) is: integers below `2^53` are exact; larger integers round to
the nearest multiple of `u = 2^(log2 x - 52)`, ties to the even multiple. -/
def ofNat (x : ℕ) : ℕ :=
  if x < 2 ^ 53 then x
  else
    let e := Nat.log2 x
    let u := 2 ^ (e - 52)
    let q := x / u
    let r := x % u
    if 2 * r < u then q * u
    else if u < 2 * r then (q + 1) * u
    else if q % 2 = 0 then q * u else (q + 1) * u

/-- Exact value of the Rust expression `d.sqrt() as u64` for a nonnegative
integer-valued double `d ≤ 2^64`.  IEEE-754 requires `sqrt` to be correctly
rounded: the result is the representable binary64 nearest to `√d`.  With
`4^k ≤ d < 4^(k+1)` (so `k = log2 d / 2`) the true root lies in
`[2^k, 2^(k+1))`, where doubles are the multiples of `2^(k-52)`; scaling by
`m = 52 - k` reduces nearest-double to nearest-integer of `√(d·4^m)`:
`n0 = ⌊√(d·4^m)⌋` and the root rounds up iff `(2·n0+1)^2 < 4·d·4^m` (exact
ties are impossible — an odd square never equals `4·d·4^m`).  The final
`as u64` cast truncates toward zero, dividing out the scale `2^m`. -/
def sqrtTrunc (d : ℕ) : ℕ :=
  let k := Nat.log2 d / 2
  let m := 52 - k
  let N := d * 4 ^ m
  let n0 := Nat.sqrt N
  let n := if (2 * n0 + 1) ^ 2 < 4 * N then n0 + 1 else n0
  n / 2 ^ m

/-- Embedding of `(stake_amount as f64).sqrt() as u64` from
`ars_core::vote_on_proposal` (`lib_complete.rs` line 281). -/
def votingPower (stake : ℕ) : ℕ := sqrtTrunc (ofNat stake)

theorem ofNat_of_lt (x : ℕ) (h : x < 2 ^ 53) : ofNat x = x := by
  simp only [ofNat]
  rw [if_pos h]

theorem log2_eval (x k : ℕ) (h1 : 2 ^ k ≤ x) (h2 : x < 2 ^ (k + 1)) :
    Nat.log2 x = k := by
  rw [Nat.log2_eq_log_two]
  exact Nat.log_eq_of_pow_le_of_lt_pow h1 h2

/-- Evaluation scheme for `sqrtTrunc` at concrete inputs: all the heavy
arithmetic arrives as explicit hypotheses dischargeable by `norm_num`. -/
theorem sqrtTrunc_eval (d k m N n0 n p : ℕ)
    (hk : Nat.log2 d / 2 = k) (hm : 52 - k = m) (hN : d * 4 ^ m = N)
    (h1 : n0 ^ 2 ≤ N) (h2 : N < (n0 + 1) ^ 2)
    (hn : (if (2 * n0 + 1) ^ 2 < 4 * N then n0 + 1 else n0) = n)
    (hp : n / 2 ^ m = p) : sqrtTrunc d = p := by
  have hsq : Nat.sqrt N = n0 :=
    le_antisymm (Nat.lt_succ_iff.mp (Nat.sqrt_lt'.mpr h2)) (Nat.le_sqrt'.mpr h1)
  simp only [sqrtTrunc, hk, hm, hN, hsq, hn, hp]

theorem sqrt_eval (x a : ℕ) (h1 : a ^ 2 ≤ x) (h2 : x < (a + 1) ^ 2) :
    Nat.sqrt x = a :=
  le_antisymm (Nat.lt_succ_iff.mp (Nat.sqrt_lt'.mpr h2)) (Nat.le_sqrt'.mpr h1)

end F64

namespace F64

theorem four_pow (t : ℕ) : (4 : ℕ) ^ t = (2 ^ t) ^ 2 := by
  rw [show (4 : ℕ) = 2 ^ 2 from rfl, ← pow_mul, ← pow_mul, Nat.mul_comm]

/-- Below `2^52` the whole pipeline collapses to the integer square root: the
scaled floor root `n0` brackets `√d` so tightly that rounding the double can
never cross the next integer. -/
theorem sqrtTrunc_eq_sqrt (d : ℕ) (hd : d < 2 ^ 52) : sqrtTrunc d = Nat.sqrt d := by
  rcases Nat.eq_zero_or_pos d with h0 | hpos
  · subst h0
    have hlog : Nat.log2 0 = 0 := by
      rw [Nat.log2_eq_log_two]; exact Nat.log_zero_right 2
    norm_num [sqrtTrunc, hlog, Nat.sqrt_zero]
  · have hne : d ≠ 0 := by omega
    have hlog : Nat.log2 d < 52 := (Nat.log2_lt hne).mpr hd
    set a := Nat.sqrt d with ha
    set k := Nat.log2 d / 2 with hk
    set m := 52 - k with hm
    have hk25 : k ≤ 25 := by omega
    have hm27 : k + 1 ≤ m := by omega
    have hd4 : d < 4 ^ (k + 1) := by
      have h1 : d < 2 ^ (Nat.log2 d + 1) := Nat.lt_log2_self
      have h2 : Nat.log2 d + 1 ≤ 2 * (k + 1) := by omega
      calc d < 2 ^ (Nat.log2 d + 1) := h1
        _ ≤ 2 ^ (2 * (k + 1)) := Nat.pow_le_pow_right (by norm_num) h2
        _ = 4 ^ (k + 1) := by rw [four_pow, ← pow_mul, Nat.mul_comm]
    have hak : a < 2 ^ (k + 1) := by
      apply Nat.sqrt_lt'.mpr
      calc d < 4 ^ (k + 1) := hd4
        _ = (2 ^ (k + 1)) ^ 2 := four_pow (k + 1)
    have ha1 : a + 1 ≤ 2 ^ m :=
      le_trans (Nat.succ_le_of_lt hak) (Nat.pow_le_pow_right (by norm_num) hm27)
    set N := d * 4 ^ m with hN
    set n0 := Nat.sqrt N with hn0
    have hlow : a * 2 ^ m ≤ n0 := by
      apply Nat.le_sqrt'.mpr
      calc (a * 2 ^ m) ^ 2 = a ^ 2 * (2 ^ m) ^ 2 := by ring
        _ = a ^ 2 * 4 ^ m := by rw [four_pow]
        _ ≤ d * 4 ^ m := mul_le_mul_right' (Nat.sqrt_le' d) _
    have hhigh : n0 < (a + 1) * 2 ^ m := by
      apply Nat.sqrt_lt'.mpr
      calc d * 4 ^ m < (a + 1) ^ 2 * 4 ^ m :=
          mul_lt_mul_of_pos_right (Nat.lt_succ_sqrt' d) (pow_pos (by norm_num) m)
        _ = ((a + 1) * 2 ^ m) ^ 2 := by rw [four_pow]; ring
    simp only [sqrtTrunc]
    rw [← hk, ← hm, ← hN, ← hn0]
    by_cases hcond : (2 * n0 + 1) ^ 2 < 4 * N
    · rw [if_pos hcond]
      have hne2 : n0 + 1 ≠ (a + 1) * 2 ^ m := by
        intro heq
        have hd2 : d < (a + 1) ^ 2 := Nat.lt_succ_sqrt' d
        have h4 : 4 * N + 4 * 4 ^ m ≤ 4 * ((a + 1) ^ 2 * 4 ^ m) := by
          have hstep : (d + 1) * 4 ^ m ≤ (a + 1) ^ 2 * 4 ^ m :=
            mul_le_mul_right' (Nat.succ_le_of_lt hd2) _
          calc 4 * N + 4 * 4 ^ m = 4 * ((d + 1) * 4 ^ m) := by rw [hN]; ring
            _ ≤ 4 * ((a + 1) ^ 2 * 4 ^ m) := Nat.mul_le_mul_left 4 hstep
        have hsq2 : (2 * n0 + 1 + 1) ^ 2 = 4 * ((a + 1) ^ 2 * 4 ^ m) := by
          have h21 : 2 * n0 + 1 + 1 = 2 * ((a + 1) * 2 ^ m) := by rw [← heq]; ring
          rw [h21, four_pow]; ring
        have hexp : (2 * n0 + 1 + 1) ^ 2 = (2 * n0 + 1) ^ 2 + 2 * (2 * n0 + 1) + 1 := by
          ring
        have hlt4 : 4 * 4 ^ m < 2 * (2 * n0 + 1) + 1 := by
          linarith [hcond, h4, hsq2, hexp]
        have hb : (a + 1) * 2 ^ m ≤ 2 ^ m * 2 ^ m := mul_le_mul_right' ha1 _
        have h4m : 2 ^ m * 2 ^ m = 4 ^ m := by rw [four_pow]; ring
        linarith [heq, hlt4, hb, h4m]
      have hlt2 : n0 + 1 < (a + 1) * 2 ^ m :=
        lt_of_le_of_ne (Nat.succ_le_of_lt hhigh) hne2
      exact Nat.div_eq_of_lt_le (le_trans hlow (Nat.le_succ n0)) hlt2
    · rw [if_neg hcond]
      exact Nat.div_eq_of_lt_le hlow hhigh

/-- For every input the truncated rounded root exceeds the integer square
root of the converted double by at most one. -/
theorem sqrtTrunc_le_succ (d : ℕ) : sqrtTrunc d ≤ Nat.sqrt d + 1 := by
  set s := Nat.sqrt d with hs
  set k := Nat.log2 d / 2 with hk
  set m := 52 - k with hm
  set N := d * 4 ^ m with hN
  set n0 := Nat.sqrt N with hn0
  have hhigh : n0 < (s + 1) * 2 ^ m := by
    apply Nat.sqrt_lt'.mpr
    calc d * 4 ^ m < (s + 1) ^ 2 * 4 ^ m :=
        mul_lt_mul_of_pos_right (Nat.lt_succ_sqrt' d) (pow_pos (by norm_num) m)
      _ = ((s + 1) * 2 ^ m) ^ 2 := by rw [four_pow]; ring
  have hdiv : ∀ n, n ≤ (s + 1) * 2 ^ m → n / 2 ^ m ≤ s + 1 := by
    intro n hn
    calc n / 2 ^ m ≤ (s + 1) * 2 ^ m / 2 ^ m := Nat.div_le_div_right hn
      _ = s + 1 := Nat.mul_div_cancel _ (pow_pos (by norm_num) m)
  simp only [sqrtTrunc]
  rw [← hk, ← hm, ← hN, ← hn0]
  by_cases hcond : (2 * n0 + 1) ^ 2 < 4 * N
  · rw [if_pos hcond]; exact hdiv _ (Nat.succ_le_of_lt hhigh)
  · rw [if_neg hcond]; exact hdiv _ (le_of_lt hhigh)

/-- The u64-to-double conversion never exceeds `2^64`. -/
theorem ofNat_le (x : ℕ) (hx : x ≤ U64MAX) : ofNat x ≤ 2 ^ 64 := by
  have hx64 : x < 2 ^ 64 := by
    have : U64MAX < 2 ^ 64 := by norm_num [U64MAX]
    omega
  by_cases h : x < 2 ^ 53
  · rw [ofNat_of_lt x h]
    exact le_of_lt hx64
  · simp only [ofNat]
    rw [if_neg h]
    set e := Nat.log2 x with he
    set u := 2 ^ (e - 52) with hu
    have hu0 : 0 < u := pow_pos (by norm_num) _
    have he63 : e ≤ 63 := by
      have hne : x ≠ 0 := by omega
      have := (Nat.log2_lt hne).mpr hx64
      omega
    have hdvd : 2 ^ (64 - (e - 52)) * u = 2 ^ 64 := by
      rw [hu, ← pow_add]
      congr 1
      omega
    have hq : x / u < 2 ^ (64 - (e - 52)) := by
      rw [Nat.div_lt_iff_lt_mul hu0]
      calc x < 2 ^ 64 := hx64
        _ = 2 ^ (64 - (e - 52)) * u := hdvd.symm
    have hqu : (x / u + 1) * u ≤ 2 ^ 64 := by
      calc (x / u + 1) * u ≤ 2 ^ (64 - (e - 52)) * u :=
          mul_le_mul_right' (Nat.succ_le_of_lt hq) u
        _ = 2 ^ 64 := hdvd
    have hqu0 : x / u * u ≤ 2 ^ 64 :=
      le_trans (Nat.div_mul_le_self x u) (le_of_lt hx64)
    split_ifs
    all_goals first | exact hqu0 | exact hqu

/-- The embedded voting power never exceeds the stake. -/
theorem votingPower_le (x : ℕ) (hx : x ≤ U64MAX) : votingPower x ≤ x := by
  rcases Nat.lt_or_ge x 2 with h2 | h2
  · have hx01 : x = 0 ∨ x = 1 := by omega
    rcases hx01 with h | h <;> subst h
    · rw [votingPower, ofNat_of_lt 0 (by norm_num),
        sqrtTrunc_eq_sqrt 0 (by norm_num), Nat.sqrt_zero]
    · rw [votingPower, ofNat_of_lt 1 (by norm_num),
        sqrtTrunc_eq_sqrt 1 (by norm_num), Nat.sqrt_one]
  · by_cases h53 : x < 2 ^ 53
    · rw [votingPower, ofNat_of_lt x h53]
      calc sqrtTrunc x ≤ Nat.sqrt x + 1 := sqrtTrunc_le_succ x
        _ ≤ x := by
          have := Nat.sqrt_lt_self (show 1 < x by omega)
          omega
    · rw [votingPower]
      have hd : ofNat x ≤ 2 ^ 64 := ofNat_le x hx
      have hsd : Nat.sqrt (ofNat x) ≤ 2 ^ 32 := by
        have hlt : Nat.sqrt (ofNat x) < 2 ^ 32 + 1 := by
          apply Nat.sqrt_lt'.mpr
          calc ofNat x ≤ 2 ^ 64 := hd
            _ < (2 ^ 32 + 1) ^ 2 := by norm_num
        omega
      calc sqrtTrunc (ofNat x) ≤ Nat.sqrt (ofNat x) + 1 := sqrtTrunc_le_succ _
        _ ≤ 2 ^ 32 + 1 := by omega
        _ ≤ x := by omega

/-- Below `2^52` the embedded voting power is exactly `⌊√stake⌋`. -/
theorem votingPower_eq_sqrt (x : ℕ) (hx : x < 2 ^ 52) :
    votingPower x = Nat.sqrt x := by
  rw [votingPower, ofNat_of_lt x (lt_trans hx (by norm_num)),
    sqrtTrunc_eq_sqrt x hx]

end F64

namespace F64

/-- Evaluation of the voting power at the stake 94906265² − 1: the input is
below `2^53` so the conversion is exact, but the correctly rounded double
square root lands exactly on 94906265 (the true root 94906264.999999995…
is within half an ulp of it), and truncation keeps it there. -/
theorem votingPower_counterexample_eval : votingPower 9007199136250224 = 94906265 := by
  rw [votingPower, ofNat_of_lt 9007199136250224 (by norm_num)]
  have hlog : Nat.log2 9007199136250224 = 52 :=
    log2_eval 9007199136250224 52 (by norm_num) (by norm_num)
  refine sqrtTrunc_eval 9007199136250224 26 26 40564818673668362236250610991104
    6369051630632959 6369051630632960 94906265 ?_ (by norm_num) (by norm_num)
    (by norm_num) (by norm_num) ?_ (by norm_num)
  · rw [hlog]
  · rw [if_pos (by norm_num)]

/-- The integer square root at the same stake is one smaller. -/
theorem sqrt_counterexample_eval : Nat.sqrt 9007199136250224 = 94906264 :=
  sqrt_eval 9007199136250224 94906264 (by norm_num) (by norm_num)

end F64

/-- C7 counterexample: at stake 9007199136250224 = 94906265² − 1 the credited
voting power `(stake as f64).sqrt() as u64` is 94906265, while
`floor(sqrt(stake))` is 94906264 — the f64 rounding crosses the next integer,
so the claimed identity `power = floor(sqrt(stake))` fails for this stake. -/
theorem voting_power_not_floor_sqrt_counterexample :
    F64.votingPower 9007199136250224 = 94906265 ∧
    Nat.sqrt 9007199136250224 = 94906264 ∧
    F64.votingPower 9007199136250224 ≠ Nat.sqrt 9007199136250224 := by
  refine ⟨F64.votingPower_counterexample_eval, F64.sqrt_counterexample_eval, ?_⟩
  rw [F64.votingPower_counterexample_eval, F64.sqrt_counterexample_eval]
  norm_num

/-- C7 (amended): the voting power credited by `vote_on_proposal` is the `u64`
truncation of the IEEE-754 double square root of the stake.  It is always at
most the stake, and for every stake below `2^52` it equals
`floor(sqrt(stake))` exactly; above that it can exceed the floor by one (see
the counterexample). -/
theorem voting_power_f64_bound (stake : ℕ) (h : stake ≤ U64MAX) :
    F64.votingPower stake ≤ stake ∧
    (stake < 2 ^ 52 → F64.votingPower stake = Nat.sqrt stake) :=
  ⟨F64.votingPower_le stake h, fun h52 => F64.votingPower_eq_sqrt stake h52⟩

/-- Witness for C7's amended theorem at stake 1000000. -/
theorem voting_power_f64_bound_witness :
    1000000 ≤ U64MAX ∧
    (F64.votingPower 1000000 ≤ 1000000 ∧
      (1000000 < 2 ^ 52 → F64.votingPower 1000000 = Nat.sqrt 1000000)) :=
  ⟨by norm_num [U64MAX], voting_power_f64_bound 1000000 (by norm_num [U64MAX])⟩

namespace ArsCore

/-- The `ars_core::PolicyType` enum (`ars-core/src/state.rs`). -/
inductive PolicyType where
  | MintARU
  | BurnARU
  | UpdateParameters
  | RebalanceVault
  deriving Repr, DecidableEq

/-- The `ars_core::ProposalStatus` enum (`ars-core/src/state.rs`). -/
inductive ProposalStatus where
  | Active
  | Passed
  | Rejected
  | Executed
  deriving Repr, DecidableEq

/-- State of `ars_core::PolicyProposal` (`ars-core/src/state.rs`); the policy
payload is a byte vector, modelled as a list whose elements are bytes. -/
structure PolicyProposal where
  id : ℕ
  proposer : ℕ
  policy_type : PolicyType
  policy_params : List ℕ
  start_time : ℤ
  end_time : ℤ
  yes_stake : ℕ
  no_stake : ℕ
  quadratic_yes : ℕ
  quadratic_no : ℕ
  status : ProposalStatus
  griefing_protection_deposit : ℕ
  deriving Repr, DecidableEq

/-- Embedding of `ars_core::create_proposal` (`lib_complete.rs` lines
219-264): requires `voting_period > 0 && voting_period <= 604800` (else
`InvalidVotingPeriod`) and `policy_params.len() <= 256` (else
`InvalidAmount`), then builds the proposal with window
`[now, now + voting_period)` (checked i64 add), zeroed tallies, status
`Active`, the fixed griefing deposit, and increments the global proposal
counter (checked u64 add). -/
def create_proposal (g : GlobalState) (proposer : ℕ) (policy_type : PolicyType)
    (policy_params : List ℕ) (voting_period now : ℤ) :
    Except Err (GlobalState × PolicyProposal) :=
  if ¬ (0 < voting_period ∧ voting_period ≤ 604800) then .error .InvalidVotingPeriod
  else if ¬ policy_params.length ≤ 256 then .error .InvalidAmount
  else
    match checkedAddI now voting_period with
    | .error e => .error e
    | .ok end_time =>
      match checkedAdd g.proposal_counter 1 with
      | .error e => .error e
      | .ok next_counter =>
        .ok ({ g with proposal_counter := next_counter },
          { id := g.proposal_counter, proposer := proposer,
            policy_type := policy_type, policy_params := policy_params,
            start_time := now, end_time := end_time,
            yes_stake := 0, no_stake := 0, quadratic_yes := 0, quadratic_no := 0,
            status := .Active, griefing_protection_deposit := 10000000 })

/-- Embedding of `ars_core::vote_on_proposal` (`lib_complete.rs` lines
266-308): requires the clock to lie inside `[start_time, end_time)` (else
`ProposalNotActive`) and the agent to be active (else `AgentNotActive`);
computes `voting_power = (stake_amount as f64).sqrt() as u64` and adds the
raw stake and the quadratic power to the chosen buckets with checked adds.
No other check occurs: neither `proposal.status` nor the voter's recorded
`stake_amount` in the agent registry is consulted. -/
def vote_on_proposal (p : PolicyProposal) (a : AgentRegistry) (now : ℤ)
    (vote_yes : Bool) (stake_amount : ℕ) : Except Err PolicyProposal :=
  if ¬ (p.start_time ≤ now ∧ now < p.end_time) then .error .ProposalNotActive
  else if ¬ a.is_active then .error .AgentNotActive
  else
    let voting_power := F64.votingPower stake_amount
    if vote_yes then
      match checkedAdd p.yes_stake stake_amount with
      | .error e => .error e
      | .ok ys =>
        match checkedAdd p.quadratic_yes voting_power with
        | .error e => .error e
        | .ok qy => .ok { p with yes_stake := ys, quadratic_yes := qy }
    else
      match checkedAdd p.no_stake stake_amount with
      | .error e => .error e
      | .ok ns =>
        match checkedAdd p.quadratic_no voting_power with
        | .error e => .error e
        | .ok qn => .ok { p with no_stake := ns, quadratic_no := qn }

end ArsCore

namespace IcbCore

/-- The icb-core proposal status enum.  Its declaring `state.rs` module is not
in the tree; the constructors are taken from their use sites in
`icb-core/src/instructions/execute_proposal.rs` and
`vote_on_proposal.rs` (`Active`, `Passed`, `Failed`, `Executed`) — `Failed`
is this program's name for the spec's terminal "Rejected" state. -/
inductive Status where
  | Active
  | Passed
  | Failed
  | Executed
  deriving Repr, DecidableEq

/-- The icb-core proposal record, with the fields read or written by the
handlers in the tree (`id`, window, raw yes/no stake tallies, status). -/
structure Proposal where
  id : ℕ
  start_time : ℤ
  end_time : ℤ
  yes_stake : ℕ
  no_stake : ℕ
  status : Status
  deriving Repr, DecidableEq

/-- Embedding of the icb-core `create_proposal` handler
(`icb-core/src/instructions/create_proposal.rs` lines 31-71) together with
its account constraint: Anchor validates
`!global_state.circuit_breaker_active` (else `CircuitBreakerActive`) before
the body runs; the body requires
`MIN_VOTING_PERIOD ≤ duration ≤ MAX_VOTING_PERIOD` (3600 and 604800 in
`constants.rs`, else `InvalidVotingPeriod`) and
`policy_params.len() ≤ MAX_PARAMS_LEN` (else `InvalidStakeAmount`; the
constant lives in the missing state module, so it is a parameter here).  The
proposal id is the clock value cast `as u64` and the end time is the
UNchecked i64 sum `now + duration`, reduced into the wrapping i64 range. -/
def create_proposal (max_params_len : ℕ) (breaker : Bool) (params_len : ℕ)
    (duration now : ℤ) : Except Err Proposal :=
  if breaker then .error .CircuitBreakerActive
  else if ¬ (3600 ≤ duration ∧ duration ≤ 604800) then .error .InvalidVotingPeriod
  else if ¬ params_len ≤ max_params_len then .error .InvalidStakeAmount
  else
    .ok { id := ((now + 2 ^ 63) % 2 ^ 64 - 2 ^ 63 + 2 ^ 64).toNat % 2 ^ 64,
          start_time := now,
          end_time := (now + duration + 2 ^ 63) % 2 ^ 64 - 2 ^ 63,
          yes_stake := 0, no_stake := 0, status := .Active }

/-- Embedding of the icb-core `execute_proposal` handler
(`icb-core/src/instructions/execute_proposal.rs` lines 25-74) with its
account constraint `proposal.status == Active` (else `ProposalNotActive`).
The body requires the window to be over (else `ProposalStillActive`), the
total stake to be positive (checked add, else `InsufficientStake`), computes
`yes_stake * 10000 / total` in u128 (no overflow is possible for u64 inputs,
and the result is at most 10000 so the closing `as u64` cast is lossless),
and resolves: strict majority (`> 5000` bps) sets `Passed` and immediately
`Executed`; otherwise `Failed`. -/
def execute_proposal (p : Proposal) (now : ℤ) : Except Err Proposal :=
  if ¬ p.status = .Active then .error .ProposalNotActive
  else if now < p.end_time then .error .ProposalStillActive
  else
    match checkedAdd p.yes_stake p.no_stake with
    | .error e => .error e
    | .ok total_stake =>
      if ¬ 0 < total_stake then .error .InsufficientStake
      else
        let yes_percentage := p.yes_stake * 10000 / total_stake
        if 5000 < yes_percentage then .ok { p with status := .Executed }
        else .ok { p with status := .Failed }

end IcbCore

/-- C8 counterexample: `ars_core::create_proposal` accepts a voting period of
one second — its guard is `voting_period > 0 && voting_period <= 604800`,
with no one-hour lower bound — so the claim's "fails iff outside
[3600 s, 604800 s]" is false at `voting_period = 1`. -/
theorem create_proposal_accepts_sub_hour_period_counterexample :
    (1 : ℤ) < 3600 ∧
    ArsCore.create_proposal ArsCore.wg0 5 .MintARU [] 1 0 =
      .ok (⟨false, 0, 3, 1⟩,
        { id := 0, proposer := 5, policy_type := .MintARU, policy_params := [],
          start_time := 0, end_time := 1, yes_stake := 0, no_stake := 0,
          quadratic_yes := 0, quadratic_no := 0, status := .Active,
          griefing_protection_deposit := 10000000 }) := by
  refine ⟨by norm_num, by decide⟩

/-- C8 (amended): `ars_core::create_proposal` fails with `InvalidVotingPeriod`
iff the period is nonpositive or exceeds 604800 s — periods as short as one
second pass — and, when the period is accepted, an oversized payload (more
than 256 bytes) fails with `InvalidAmount`.  The icb-core variant of the
handler does enforce the claimed window: it fails with `InvalidVotingPeriod`
iff the duration lies outside [3600 s, 604800 s]. -/
theorem voting_period_validation (g : ArsCore.GlobalState) (prop : ℕ)
    (pt : ArsCore.PolicyType) (params : List ℕ) (period now : ℤ)
    (mx plen : ℕ) (d n2 : ℤ) :
    (ArsCore.create_proposal g prop pt params period now =
        .error .InvalidVotingPeriod ↔ (period ≤ 0 ∨ 604800 < period)) ∧
    (0 < period → period ≤ 604800 → 256 < params.length →
      ArsCore.create_proposal g prop pt params period now = .error .InvalidAmount) ∧
    (IcbCore.create_proposal mx false plen d n2 =
        .error .InvalidVotingPeriod ↔ (d < 3600 ∨ 604800 < d)) := by
  refine ⟨⟨?_, ?_⟩, ?_, ⟨?_, ?_⟩⟩
  · intro h
    by_contra hcon
    have hp : 0 < period ∧ period ≤ 604800 := by omega
    simp only [ArsCore.create_proposal] at h
    rw [if_neg (not_not_intro hp)] at h
    split at h
    · simp at h
    · split at h
      · rename_i e heq
        simp only [checkedAddI] at heq
        split at heq <;> simp_all
      · split at h
        · rename_i e heq
          simp only [checkedAdd] at heq
          split at heq <;> simp_all
        · simp at h
  · intro hor
    simp only [ArsCore.create_proposal]
    rw [if_pos (by omega : ¬ (0 < period ∧ period ≤ 604800))]
  · intro h1 h2 h3
    simp only [ArsCore.create_proposal]
    rw [if_neg (not_not_intro ⟨h1, h2⟩), if_pos (Nat.not_le.mpr h3)]
  · intro h
    by_contra hcon
    have hd : 3600 ≤ d ∧ d ≤ 604800 := by omega
    simp only [IcbCore.create_proposal] at h
    rw [if_neg (by simp), if_neg (not_not_intro hd)] at h
    split at h <;> simp_all
  · intro hor
    simp only [IcbCore.create_proposal]
    rw [if_neg (by simp), if_pos (by omega : ¬ (3600 ≤ d ∧ d ≤ 604800))]

/-- Witness for C8's amended theorem: a period of 700000 s (above 7 days) is
rejected with `InvalidVotingPeriod` by the ars-core handler. -/
theorem voting_period_validation_witness :
    ArsCore.create_proposal ArsCore.wg0 5 .MintARU [] 700000 0 =
      .error .InvalidVotingPeriod :=
  ((voting_period_validation ArsCore.wg0 5 .MintARU [] 700000 0 256 0 3600 0).1).mpr
    (Or.inr (by norm_num))

/-- C9: given an `Active` icb-core proposal, `execute_proposal` fails with
`ProposalStillActive` strictly before `end_time`; after the window closes, a
700-yes / 300-no proposal resolves through `Passed` into the terminal
`Executed` status, and a 300-yes / 700-no proposal resolves to the terminal
rejected status (constructor `Failed` in this program); a proposal whose
status is not `Active` is always rejected with `ProposalNotActive`, and every
successful execution ends in `Executed` or `Failed` — so the status can never
leave a terminal state, making the transitions one-directional. -/
theorem execute_proposal_resolution (p : IcbCore.Proposal) (now : ℤ) :
    (p.status = .Active → now < p.end_time →
      IcbCore.execute_proposal p now = .error .ProposalStillActive) ∧
    (p.status = .Active → p.end_time ≤ now → p.yes_stake = 700 → p.no_stake = 300 →
      IcbCore.execute_proposal p now = .ok { p with status := .Executed }) ∧
    (p.status = .Active → p.end_time ≤ now → p.yes_stake = 300 → p.no_stake = 700 →
      IcbCore.execute_proposal p now = .ok { p with status := .Failed }) ∧
    (¬ p.status = .Active →
      IcbCore.execute_proposal p now = .error .ProposalNotActive) ∧
    (∀ p', IcbCore.execute_proposal p now = .ok p' →
      p'.status = .Executed ∨ p'.status = .Failed) := by
  refine ⟨?_, ?_, ?_, ?_, ?_⟩
  · intro h1 h2
    simp only [IcbCore.execute_proposal]
    rw [if_neg (not_not_intro h1), if_pos h2]
  · intro h1 h2 h3 h4
    simp only [IcbCore.execute_proposal]
    rw [if_neg (not_not_intro h1), if_neg (not_lt.mpr h2), h3, h4]
    norm_num [checkedAdd, U64MAX]
  · intro h1 h2 h3 h4
    simp only [IcbCore.execute_proposal]
    rw [if_neg (not_not_intro h1), if_neg (not_lt.mpr h2), h3, h4]
    norm_num [checkedAdd, U64MAX]
  · intro h
    simp only [IcbCore.execute_proposal]
    rw [if_pos h]
  · intro p' h
    by_cases h1 : p.status = .Active
    case neg =>
      simp only [IcbCore.execute_proposal] at h
      rw [if_pos h1] at h
      exact Except.noConfusion h
    by_cases h2 : now < p.end_time
    case pos =>
      simp only [IcbCore.execute_proposal] at h
      rw [if_neg (not_not_intro h1), if_pos h2] at h
      exact Except.noConfusion h
    simp only [IcbCore.execute_proposal] at h
    rw [if_neg (not_not_intro h1), if_neg h2] at h
    rcases hA : checkedAdd p.yes_stake p.no_stake with e | total
    · simp only [hA] at h
      exact Except.noConfusion h
    · simp only [hA] at h
      by_cases h3 : 0 < total
      case neg =>
        rw [if_pos h3] at h
        exact Except.noConfusion h
      rw [if_neg (not_not_intro h3)] at h
      by_cases h4 : 5000 < p.yes_stake * 10000 / total
      · rw [if_pos h4] at h
        cases h
        exact Or.inl rfl
      · rw [if_neg h4] at h
        cases h
        exact Or.inr rfl

/-- The spec's passing scenario as a concrete proposal. -/
def wp700 : IcbCore.Proposal := ⟨1, 0, 100, 700, 300, .Active⟩

/-- Witness for C9: the 700/300 proposal executed at time 100 (its end time)
resolves to `Executed`. -/
theorem execute_proposal_resolution_witness :
    IcbCore.execute_proposal wp700 100 = .ok { wp700 with status := .Executed } :=
  (execute_proposal_resolution wp700 100).2.1 rfl (by decide) rfl rfl

/-- C10 (implicit claim): `ars_core::vote_on_proposal` succeeds exactly when
the voting window is open (`start_time ≤ now < end_time`), the agent is
active, and the two `checked_add` accumulations fit in `u64` — and nothing
else: the success condition nowhere mentions the voter's recorded
`stake_amount` in the agent registry (the binder `a.stake_amount` is
unconstrained), so a caller-supplied stake arbitrarily larger than the
recorded stake is accepted and accumulated verbatim, with quadratic power
`(stake as f64).sqrt() as u64` added to the matching bucket. -/
theorem vote_accepts_any_stake (p : ArsCore.PolicyProposal)
    (a : ArsCore.AgentRegistry) (now : ℤ) (vote_yes : Bool) (stake : ℕ) :
    ((∃ p', ArsCore.vote_on_proposal p a now vote_yes stake = .ok p') ↔
      (p.start_time ≤ now ∧ now < p.end_time ∧ a.is_active = true ∧
        (if vote_yes then
          p.yes_stake + stake ≤ U64MAX ∧
          p.quadratic_yes + F64.votingPower stake ≤ U64MAX
        else
          p.no_stake + stake ≤ U64MAX ∧
          p.quadratic_no + F64.votingPower stake ≤ U64MAX))) ∧
    (∀ p', ArsCore.vote_on_proposal p a now true stake = .ok p' →
      p'.yes_stake = p.yes_stake + stake ∧
      p'.quadratic_yes = p.quadratic_yes + F64.votingPower stake ∧
      p'.no_stake = p.no_stake ∧ p'.quadratic_no = p.quadratic_no ∧
      p'.status = p.status) ∧
    (∀ p', ArsCore.vote_on_proposal p a now false stake = .ok p' →
      p'.no_stake = p.no_stake + stake ∧
      p'.quadratic_no = p.quadratic_no + F64.votingPower stake ∧
      p'.yes_stake = p.yes_stake ∧ p'.quadratic_yes = p.quadratic_yes ∧
      p'.status = p.status) := by
  refine ⟨?_, ?_, ?_⟩
  · cases vote_yes
    · by_cases hw1 : p.start_time ≤ now <;>
        by_cases hw2 : now < p.end_time <;>
        by_cases ha : a.is_active = true <;>
        by_cases hx1 : p.no_stake + stake ≤ U64MAX <;>
        by_cases hx2 : p.quadratic_no + F64.votingPower stake ≤ U64MAX <;>
        simp [ArsCore.vote_on_proposal, checkedAdd, hw1, hw2, ha, hx1, hx2]
    · by_cases hw1 : p.start_time ≤ now <;>
        by_cases hw2 : now < p.end_time <;>
        by_cases ha : a.is_active = true <;>
        by_cases hx1 : p.yes_stake + stake ≤ U64MAX <;>
        by_cases hx2 : p.quadratic_yes + F64.votingPower stake ≤ U64MAX <;>
        simp [ArsCore.vote_on_proposal, checkedAdd, hw1, hw2, ha, hx1, hx2]
  · intro p' h
    by_cases hw1 : p.start_time ≤ now <;>
      by_cases hw2 : now < p.end_time <;>
      by_cases ha : a.is_active = true <;>
      by_cases hx1 : p.yes_stake + stake ≤ U64MAX <;>
      by_cases hx2 : p.quadratic_yes + F64.votingPower stake ≤ U64MAX <;>
      simp [ArsCore.vote_on_proposal, checkedAdd, hw1, hw2, ha, hx1, hx2] at h
    rw [← h]
    exact ⟨rfl, rfl, rfl, rfl, rfl⟩
  · intro p' h
    by_cases hw1 : p.start_time ≤ now <;>
      by_cases hw2 : now < p.end_time <;>
      by_cases ha : a.is_active = true <;>
      by_cases hx1 : p.no_stake + stake ≤ U64MAX <;>
      by_cases hx2 : p.quadratic_no + F64.votingPower stake ≤ U64MAX <;>
      simp [ArsCore.vote_on_proposal, checkedAdd, hw1, hw2, ha, hx1, hx2] at h
    rw [← h]
    exact ⟨rfl, rfl, rfl, rfl, rfl⟩

namespace ArsCore

/-- An open proposal with empty tallies. -/
def wprop : PolicyProposal :=
  { id := 0, proposer := 5, policy_type := .MintARU, policy_params := [],
    start_time := 0, end_time := 1000, yes_stake := 0, no_stake := 0,
    quadratic_yes := 0, quadratic_no := 0, status := .Active,
    griefing_protection_deposit := 10000000 }

/-- An active voter whose recorded registry stake is ZERO. -/
def wvoter : AgentRegistry := ⟨9, 0, 0, true⟩

/-- The voting power of a 10^12 stake is 10^6. -/
theorem votingPower_trillion : F64.votingPower 1000000000000 = 1000000 := by
  rw [F64.votingPower_eq_sqrt 1000000000000 (by norm_num)]
  exact F64.sqrt_eval 1000000000000 1000000 (by norm_num) (by norm_num)

/-- The proposal after the trillion-stake yes vote. -/
def wpropAfter : PolicyProposal :=
  { wprop with yes_stake := 1000000000000, quadratic_yes := 1000000 }

/-- A yes vote of 10^12 — a trillion times the voter's recorded stake of 0 —
succeeds inside the window and is accumulated verbatim. -/
theorem vote_trillion_ok :
    vote_on_proposal wprop wvoter 10 true 1000000000000 = .ok wpropAfter := by
  simp only [vote_on_proposal]
  rw [if_neg (by decide), if_neg (by decide), if_pos trivial]
  have hA : checkedAdd wprop.yes_stake 1000000000000 = .ok 1000000000000 := by
    decide
  have hB : checkedAdd wprop.quadratic_yes 1000000 = .ok 1000000 := by decide
  rw [votingPower_trillion]
  simp only [hA, hB]
  rfl

end ArsCore

/-- Witness for C10: applying the theorem to the successful 10^12-stake vote
of an agent whose recorded stake is 0 shows the stake and its quadratic power
are credited unchecked. -/
theorem vote_accepts_any_stake_witness :
    ArsCore.wpropAfter.yes_stake = ArsCore.wprop.yes_stake + 1000000000000 ∧
    ArsCore.wpropAfter.quadratic_yes =
      ArsCore.wprop.quadratic_yes + F64.votingPower 1000000000000 ∧
    ArsCore.wpropAfter.no_stake = ArsCore.wprop.no_stake ∧
    ArsCore.wpropAfter.quadratic_no = ArsCore.wprop.quadratic_no ∧
    ArsCore.wpropAfter.status = ArsCore.wprop.status :=
  (vote_accepts_any_stake ArsCore.wprop ArsCore.wvoter 10 true 1000000000000).2.1
    ArsCore.wpropAfter ArsCore.vote_trillion_ok
